import Mathlib

/-!
Verification of the autodrive autopilot service (psmyrdek/autodrive).

The development shallowly embeds, over exact rational arithmetic:
* the FastAPI endpoints of `src/autopilot/src/autopilot/server.py`
  (the `/reset` handler and the `/predict` handler, including pydantic
  payload validation and the numpy reshape / normalization pipeline);
* `AutopilotInference.normalize_features` and the command thresholding of
  `src/autopilot/src/autopilot/inference.py`;
* `normalize_sequences` of `src/autopilot/src/autopilot/data_loader.py`;
* `mirror_telemetry` of `src/autopilot/src/autopilot/augmentation.py`;
* the Observation Sequence Buffer of the design document (`reset`,
  `ingest_and_build`, `record_prediction`); the buffer itself lives in the
  repository's front end, outside the python sources, so it is modelled
  from the design document's wording.

Floating point is idealized as `ℚ`; numpy value semantics are exact
rational arithmetic here.
-/

namespace AutoDrive

/-! ### Observation Sequence Buffer

Modelled from the spec: the buffer (state `capacity N`, `window`,
`previous_action`; operations `reset`, `ingest_and_build`,
`record_prediction`) is implemented in the repository's front end, which is
not part of the python sources; the definitions below follow section 4.1 of
the design document word for word. -/

/-- An observation is an ordered tuple of numeric fields (width 10 once
composed: 6 raw sensor values followed by the 4 previous-action
indicators). -/
abbrev Obs := List ℚ

/-- The all-zero previous-action 4-vector `[0,0,0,0]`. -/
def zeroAction : List ℚ := [0, 0, 0, 0]

/-- Modelled from the spec: buffer state — `capacity N` fixed at
construction, `window` a bounded FIFO of observations (oldest first, size
at most `N`), and `previous_action`, the most recently recorded thresholded
prediction. -/
structure ObsBuffer where
  capacity : Nat
  window : List Obs
  previous_action : List ℚ
deriving DecidableEq

/-- Modelled from the spec: a freshly constructed buffer of capacity `N`
has an empty window and an all-zero previous action. -/
def freshBuffer (N : Nat) : ObsBuffer :=
  { capacity := N, window := [], previous_action := zeroAction }

/-- Modelled from the spec: `reset()` clears `window` to empty and
`previous_action` to `[0,0,0,0]`; the capacity is fixed at construction and
survives the reset. -/
def ObsBuffer.reset (b : ObsBuffer) : ObsBuffer :=
  { b with window := [], previous_action := zeroAction }

/-- Modelled from the spec: thresholding of a predicted probability vector,
`probability >= threshold` counting as positive, producing the binary
previous-action indicators. -/
def thresholdActions (probs : List ℚ) (threshold : ℚ) : List ℚ :=
  probs.map (fun p => if threshold ≤ p then 1 else 0)

/-- Modelled from the spec: `record_prediction(action, threshold)`
thresholds each predicted probability (ties count positive) and stores the
binary 4-vector as the new `previous_action`. -/
def ObsBuffer.record_prediction (b : ObsBuffer) (probs : List ℚ)
    (threshold : ℚ) : ObsBuffer :=
  { b with previous_action := thresholdActions probs threshold }

/-- Modelled from the spec: append an observation to the window; if the
window already has `N` elements, evict the oldest (FIFO) while appending so
the size never exceeds `N`. -/
def pushWindow (N : Nat) (w : List Obs) (o : Obs) : List Obs :=
  if w.length = N then w.tail ++ [o] else w ++ [o]

/-- Modelled from the spec: if the window has fewer than `N` elements
(cold start), left-pad the sequence by repeating the first element
currently in the window until the total length is `N`. -/
def padSequence (N : Nat) (w : List Obs) : List Obs :=
  match w with
  | [] => []
  | first :: _ => List.replicate (N - w.length) first ++ w

/-- Modelled from the spec: `ingest_and_build(raw_sensors)` composes the
observation `raw_sensors ++ previous_action`, pushes it into the window
(evicting the oldest element when full) and returns the left-padded
length-`N` sequence together with the updated buffer. -/
def ObsBuffer.ingest_and_build (b : ObsBuffer) (raw : List ℚ) :
    List Obs × ObsBuffer :=
  let o := raw ++ b.previous_action
  let w := pushWindow b.capacity b.window o
  (padSequence b.capacity w, { b with window := w })

/-- A buffer operation of a driving session: either ingesting a raw sensor
reading or recording a thresholded prediction. -/
inductive BufOp where
  | ingest (raw : List ℚ)
  | record (probs : List ℚ) (threshold : ℚ)
deriving DecidableEq

/-- One step of a session: `ingest` replaces the last returned sequence,
`record` only updates the previous action. -/
def applyOp (acc : List Obs × ObsBuffer) (op : BufOp) : List Obs × ObsBuffer :=
  match op with
  | .ingest raw => acc.2.ingest_and_build raw
  | .record p t => (acc.1, acc.2.record_prediction p t)

/-- Run a list of buffer operations from a buffer; the first component is
the sequence returned by the most recent `ingest_and_build` call (or `[]`
when no ingest happened yet). -/
def runOps (b : ObsBuffer) (ops : List BufOp) : List Obs × ObsBuffer :=
  ops.foldl applyOp ([], b)

/-- The stream of composed observations that a list of buffer operations
pushes into the window, given the previous action in force at the start:
each ingest contributes `raw ++ action`, each record updates the action. -/
def obsStream (act : List ℚ) : List BufOp → List Obs
  | [] => []
  | .ingest raw :: rest => (raw ++ act) :: obsStream act rest
  | .record p t :: rest => obsStream (thresholdActions p t) rest

/-- Pushing a whole stream of observations into a window, oldest first. -/
def foldPush (N : Nat) (w : List Obs) (os : List Obs) : List Obs :=
  os.foldl (pushWindow N) w

/-! ### The `/reset` endpoint (server.py, lines 73–86)

`reset_buffer` raises 503 when the model is not loaded, otherwise calls
`autopilot.reset_buffer()` inside `try`; any exception becomes an HTTP 500
whose detail starts with `Reset error`. Python resolves the call by
attribute lookup on the `AutopilotInference` instance, so it succeeds
exactly when the class defines a `reset_buffer` attribute. -/

/-- The attributes bound on an `AutopilotInference` object: the methods of
the class body of `inference.py` together with the instance fields set in
`__init__`. -/
def autopilotInferenceAttrs : List String :=
  ["__init__", "normalize_features", "predict", "predict_batch",
   "device", "model", "normalization_params"]

/-- Python attribute lookup on the modelled object. -/
def hasAttr (attrs : List String) (name : String) : Bool :=
  attrs.contains name

/-- Responses of the `/reset` endpoint: the JSON success body
`{"status": ...}` or an `HTTPException` with a status code and the prefix
of its detail string. -/
inductive ResetResponse where
  | ok (status : String)
  | httpError (code : Nat) (detail : String)
deriving DecidableEq

/-- Embedding of the `/reset` handler (server.py lines 73–86): 503 when the
model is not loaded; otherwise the success body `buffer_reset` when the
`autopilot.reset_buffer()` attribute lookup succeeds, and the HTTP 500
`Reset error` branch when the lookup raises `AttributeError`. -/
def reset_endpoint (modelLoaded : Bool) : ResetResponse :=
  if modelLoaded then
    if hasAttr autopilotInferenceAttrs ("reset_buffer") then
      .ok ("buffer_reset")
    else
      .httpError 500 ("Reset error")
  else
    .httpError 503 ("Model not loaded")

/-! ### Normalization (data_loader.py lines 129–163, inference.py lines 44–60) -/

/-- The replacement `np.where(std == 0, 1, std)` of data_loader.py line
150: every per-feature std entry that is exactly 0 is replaced with 1. -/
def fixStd (std : List ℚ) : List ℚ :=
  std.map (fun s => if s = 0 then 1 else s)

/-- Per-feature standardization of one row: `(value - mean) / std`,
feature by feature. -/
def normalizeRow (row mean std : List ℚ) : List ℚ :=
  (row.zip (mean.zip std)).map (fun q => (q.1 - q.2.1) / q.2.2)

/-- The normalization record stored in the checkpoint:
`{mean: list, std: list}`. -/
structure NormParams where
  mean : List ℚ
  std : List ℚ
deriving DecidableEq

/-- Embedding of `normalize_sequences` (data_loader.py lines 141–163) on
the matrix already reshaped to `(N * seq_len, features)` rows.  The
per-feature `mean` (from `np.mean`) and `std` (from `np.std`, a real square
root, hence taken as an input here) are parameters; the zero-std
replacement and the division `(reshaped - mean) / std` are embedded
exactly.  Returns the normalized rows and the stored normalization
record. -/
def normalize_sequences (rows : List (List ℚ)) (mean std : List ℚ) :
    List (List ℚ) × NormParams :=
  let stdFixed := fixStd std
  (rows.map (fun r => normalizeRow r mean stdFixed), ⟨mean, stdFixed⟩)

/-- Embedding of `AutopilotInference.normalize_features` (inference.py
lines 44–60): with no normalization record the features are returned
unchanged, otherwise `(features - mean) / std` is applied per feature. -/
def normalize_features (params : Option NormParams) (features : List ℚ) :
    List ℚ :=
  match params with
  | none => features
  | some p => normalizeRow features p.mean p.std

/-- The warning printed by `AutopilotInference.__init__` (inference.py
lines 40–42) when the checkpoint holds no normalization record. -/
def noNormalizationWarning : String :=
  "Warning: No normalization parameters found in checkpoint. Make sure to normalize features manually."

/-- The warnings `AutopilotInference.__init__` emits at load time as a
function of the checkpoint's normalization record. -/
def loadWarnings (params : Option NormParams) : List String :=
  match params with
  | none => [noNormalizationWarning]
  | some _ => []

/-- Modelled from the spec: `denormalize`, the inverse transform (multiply
by std, add mean); no denormalization routine exists in the python
sources. -/
def denormalize (x mean std : List ℚ) : List ℚ :=
  (x.zip (mean.zip std)).map (fun q => q.1 * q.2.2 + q.2.1)

/-! ### Thresholded control commands
(inference.py lines 113–124, server.py lines 144–156) -/

/-- The four predicted probabilities `probs[0..3]`, in W/A/S/D order, as
produced by the sigmoid over the model logits. -/
structure Probs4 where
  w : ℚ
  a : ℚ
  s : ℚ
  d : ℚ
deriving DecidableEq

/-- The boolean control commands of the response. -/
structure Commands where
  forward : Bool
  left : Bool
  backward : Bool
  right : Bool
deriving DecidableEq

/-- The default of the `threshold` parameter of
`AutopilotInference.predict` (inference.py line 68): `0.5`. -/
def inferenceDefaultThreshold : ℚ := 1 / 2

/-- Embedding of the command construction of `AutopilotInference.predict`
(inference.py lines 113–117): each key's boolean is
`bool(probs[i] >= threshold)`. -/
def predictCommands (probs : Probs4) (threshold : ℚ) : Commands :=
  { forward := decide (probs.w ≥ threshold),
    left := decide (probs.a ≥ threshold),
    backward := decide (probs.s ≥ threshold),
    right := decide (probs.d ≥ threshold) }

/-- The threshold hardcoded in the `/predict` handler
(server.py line 144): `0.5`. -/
def serverThreshold : ℚ := 1 / 2

/-- Embedding of the `ControlCommands` construction of the `/predict`
handler (server.py lines 145–149). -/
def serverCommands (probs : Probs4) : Commands :=
  { forward := decide (probs.w ≥ serverThreshold),
    backward := decide (probs.s ≥ serverThreshold),
    left := decide (probs.a ≥ serverThreshold),
    right := decide (probs.d ≥ serverThreshold) }

/-! ### The `/predict` endpoint (server.py lines 89–159) -/

/-- The composition loop of the `/predict` handler (server.py lines
111–119): every timestep of the request's sequence is extended with the
same previous-action vector, `full_timestep = timestep + prev_actions`. -/
def composeTimesteps (x : List (List ℚ)) (prev_actions : List ℚ) :
    List (List ℚ) :=
  x.map (fun timestep => timestep ++ prev_actions)

/-- JSON-like values of a request body, as far as the payload validation
needs them: numbers, strings and arrays.  (Numeric-string coercion is not
modelled; the development only uses values that every pydantic mode
accepts or rejects alike.) -/
inductive JVal where
  | num (q : ℚ)
  | str (s : String)
  | arr (xs : List JVal)

/-- A raw `/predict` request body before validation, with the three fields
of `SequencePayload` (server.py lines 11–15); `prev_actions` is optional
because the field has a default. -/
structure RawPayload where
  dt_ms : JVal
  x : JVal
  prev_actions : Option JVal

/-- Pydantic validation of a `float` item: a JSON number. -/
def validateFloat : JVal → Option ℚ
  | .num q => some q
  | _ => none

/-- Pydantic validation of the items of a `list[float]`. -/
def validateFloats : List JVal → Option (List ℚ)
  | [] => some []
  | v :: vs =>
    match validateFloat v, validateFloats vs with
    | some q, some qs => some (q :: qs)
    | _, _ => none

/-- Pydantic validation of a `list[float]` field: a JSON array of
numbers.  No length is constrained by the annotation. -/
def validateFloatList : JVal → Option (List ℚ)
  | .arr xs => validateFloats xs
  | _ => none

/-- Pydantic validation of the rows of a `list[list[float]]`. -/
def validateRows : List JVal → Option (List (List ℚ))
  | [] => some []
  | v :: vs =>
    match validateFloatList v, validateRows vs with
    | some r, some rs => some (r :: rs)
    | _, _ => none

/-- Pydantic validation of the `x: list[list[float]]` field: a JSON array
of arrays of numbers.  The annotation constrains no inner length, so a
timestep of any arity passes validation. -/
def validateX : JVal → Option (List (List ℚ))
  | .arr xs => validateRows xs
  | _ => none

/-- Pydantic validation of the `dt_ms: int` field. -/
def validateInt : JVal → Option Int
  | .num q => if q.den = 1 then some q.num else none
  | _ => none

/-- Pydantic validation of the `prev_actions` field, whose default is
`[0.0, 0.0, 0.0, 0.0]`. -/
def validatePrev : Option JVal → Option (List ℚ)
  | none => some [0, 0, 0, 0]
  | some v => validateFloatList v

/-- Pydantic validation of the whole `SequencePayload`; `none` means
FastAPI answers with a 422 validation error and the handler never runs. -/
def validatePayload (raw : RawPayload) : Option (List (List ℚ) × List ℚ) :=
  match validateInt raw.dt_ms, validateX raw.x, validatePrev raw.prev_actions with
  | some _, some x, some prev => some (x, prev)
  | _, _, _ => none

/-- Outcomes of a `/predict` request: a 422 pydantic validation error, an
HTTP 500 `Inference error` from the handler's `except` block, or a 200
response carrying the thresholded commands. -/
inductive PredictOutcome where
  | validationError
  | inferenceError
  | ok
deriving DecidableEq

/-- Whether the `/predict` handler body (server.py lines 103–156) runs to
completion on a validated payload: the composed timesteps must form a
rectangular, nonempty array (`np.array`), must survive
`sequence.reshape(-1, 10)` and `reshape(1, len(payload.x), 10)` when a
normalization record is present, and must have the GRU's input width 10;
any failure raises and is answered as an HTTP 500 `Inference error`. -/
def predictBodyOk (hasNorm : Bool) (x : List (List ℚ)) (prev : List ℚ) :
    Bool :=
  match composeTimesteps x prev with
  | [] => false
  | t0 :: rest =>
    if rest.any (fun r => r.length ≠ t0.length) then false
    else if hasNorm then
      if (x.length * t0.length) % 10 ≠ 0 then false
      else decide (t0.length = 10)
    else decide (t0.length = 10)

/-- Embedding of the `/predict` endpoint on one request: pydantic
validation first (422 on failure, handler not entered), then the handler
body (500 on any exception, 200 otherwise). -/
def predict_endpoint (hasNorm : Bool) (raw : RawPayload) : PredictOutcome :=
  match validatePayload raw with
  | none => .validationError
  | some (x, prev) =>
    if predictBodyOk hasNorm x prev then .ok else .inferenceError

/-- The `/predict` endpoint together with the server's session state (the
loaded inference object's normalization record; the service keeps no other
per-session data): the handler never assigns to it. -/
def predict_endpoint_state (s : Option NormParams) (raw : RawPayload) :
    PredictOutcome × Option NormParams :=
  (predict_endpoint s.isSome raw, s)

/-! ### Augmentation (augmentation.py lines 6–29) -/

/-- The column swap of `mirror_telemetry` on one feature row of shape
`(6,)`: L (0) ↔ R (4), ML (1) ↔ MR (3); C (2) and speed (5) stay.  numpy
enforces the `(N, 6)` shape, so a row of any other width makes the
fancy-indexed assignment raise, modelled as `none`. -/
def mirrorFeatureRow : List ℚ → Option (List ℚ)
  | [l, ml, c, mr, r, s] => some [r, mr, c, ml, l, s]
  | _ => none

/-- The column swap of `mirror_telemetry` on one label row of shape
`(4,)`: A (1) ↔ D (3); W (0) and S (2) stay. -/
def mirrorLabelRow : List ℚ → Option (List ℚ)
  | [w, a, s, d] => some [w, d, s, a]
  | _ => none

/-- Row-wise application of a column transform to a whole array. -/
def mapRows (g : List ℚ → Option (List ℚ)) :
    List (List ℚ) → Option (List (List ℚ))
  | [] => some []
  | r :: rs =>
    match g r, mapRows g rs with
    | some r2, some rs2 => some (r2 :: rs2)
    | _, _ => none

/-- Embedding of `mirror_telemetry` (augmentation.py lines 6–29): copy the
arrays, swap the feature columns L↔R and ML↔MR and the label columns
A↔D. -/
def mirror_telemetry (features labels : List (List ℚ)) :
    Option (List (List ℚ) × List (List ℚ)) :=
  match mapRows mirrorFeatureRow features, mapRows mirrorLabelRow labels with
  | some f2, some l2 => some (f2, l2)
  | _, _ => none

/-! ### Window lemmas -/

lemma foldPush_nil (N : Nat) (w : List Obs) : foldPush N w [] = w := rfl

lemma foldPush_cons (N : Nat) (w : List Obs) (o : Obs) (os : List Obs) :
    foldPush N w (o :: os) = foldPush N (pushWindow N w o) os := rfl

/-- The window after pushing a stream is the tail of the concatenation
that fits the capacity: pushes drop the oldest elements exactly when the
total history exceeds `N`. -/
lemma foldPush_eq_drop (N : Nat) (hN : 1 ≤ N) :
    ∀ (os w : List Obs), w.length ≤ N →
      foldPush N w os = (w ++ os).drop (w.length + os.length - N) := by
  intro os
  induction os with
  | nil =>
    intro w hw
    have h0 : w.length + ([] : List Obs).length - N = 0 := by simp; omega
    rw [foldPush_nil, List.append_nil, h0, List.drop_zero]
  | cons o os ih =>
    intro w hw
    rw [foldPush_cons]
    by_cases h : w.length = N
    · obtain ⟨a, w', rfl⟩ : ∃ a w', w = a :: w' := by
        cases w with
        | nil => simp at h; omega
        | cons a w' => exact ⟨a, w', rfl⟩
      have hpush : pushWindow N (a :: w') o = w' ++ [o] := by
        simp [pushWindow, h]
      have hlen : (w' ++ [o]).length ≤ N := by
        simp at h ⊢; omega
      rw [hpush, ih _ hlen]
      have e1 : (w' ++ [o]).length + os.length - N = os.length := by
        simp at h ⊢; omega
      have e2 : (a :: w').length + (o :: os).length - N = os.length + 1 := by
        simp at h ⊢; omega
      rw [e1, e2, List.append_assoc, List.singleton_append,
        List.cons_append, List.drop_succ_cons]
    · have hlt : w.length < N := lt_of_le_of_ne hw h
      have hpush : pushWindow N w o = w ++ [o] := by
        simp [pushWindow, h]
      have hlen : (w ++ [o]).length ≤ N := by simp; omega
      rw [hpush, ih _ hlen]
      have e1 : (w ++ [o]).length + os.length - N
          = w.length + (o :: os).length - N := by simp; omega
      rw [e1, List.append_assoc, List.singleton_append]

/-- A window of exactly the capacity needs no padding. -/
lemma padSequence_of_full (N : Nat) (hN : 1 ≤ N) (w : List Obs)
    (hw : w.length = N) : padSequence N w = w := by
  cases w with
  | nil => simp at hw; omega
  | cons a w' =>
    have hw' : w'.length + 1 = N := by simpa using hw
    have h0 : N - (w'.length + 1) = 0 := by omega
    simp [padSequence, h0]

/-- Running a session from any buffer: the capacity never changes, the
window is the stream of composed observations pushed into the starting
window, and the last returned sequence is the padded window (or the
starting value when nothing was ingested). -/
lemma runOps_invariant :
    ∀ (ops : List BufOp) (seq0 : List Obs) (b : ObsBuffer),
      (ops.foldl applyOp (seq0, b)).2.capacity = b.capacity
      ∧ (ops.foldl applyOp (seq0, b)).2.window
          = foldPush b.capacity b.window (obsStream b.previous_action ops)
      ∧ (obsStream b.previous_action ops = [] →
          (ops.foldl applyOp (seq0, b)).1 = seq0)
      ∧ (obsStream b.previous_action ops ≠ [] →
          (ops.foldl applyOp (seq0, b)).1
            = padSequence b.capacity (ops.foldl applyOp (seq0, b)).2.window) := by
  intro ops
  induction ops with
  | nil =>
    intro seq0 b
    refine ⟨rfl, rfl, fun _ => rfl, fun h => absurd rfl h⟩
  | cons op rest ih =>
    intro seq0 b
    cases op with
    | record p t =>
      have step : List.foldl applyOp (seq0, b) (BufOp.record p t :: rest)
          = List.foldl applyOp (seq0, b.record_prediction p t) rest := rfl
      obtain ⟨ih1, ih2, ih3, ih4⟩ :=
        ih seq0 (b.record_prediction p t)
      rw [step]
      refine ⟨ih1, ?_, ?_, ?_⟩
      · rw [ih2]; simp [ObsBuffer.record_prediction, obsStream]
      · intro h
        exact ih3 (by simpa [ObsBuffer.record_prediction, obsStream] using h)
      · intro h
        exact ih4 (by simpa [ObsBuffer.record_prediction, obsStream] using h)
    | ingest raw =>
      have step : List.foldl applyOp (seq0, b) (BufOp.ingest raw :: rest)
          = List.foldl applyOp (b.ingest_and_build raw) rest := rfl
      set w2 := pushWindow b.capacity b.window (raw ++ b.previous_action) with hw2
      have hbuild : b.ingest_and_build raw
          = (padSequence b.capacity w2, { b with window := w2 }) := rfl
      obtain ⟨ih1, ih2, ih3, ih4⟩ :=
        ih (padSequence b.capacity w2) { b with window := w2 }
      rw [step, hbuild]
      refine ⟨ih1, ?_, ?_, ?_⟩
      · rw [ih2]
        simp only [obsStream, foldPush_cons]
      · intro h; simp [obsStream] at h
      · intro _
        by_cases hrest :
            obsStream ({ b with window := w2 } : ObsBuffer).previous_action rest = []
        · rw [ih3 hrest, ih2, hrest, foldPush_nil]
        · exact ih4 hrest

lemma runOps_def (b : ObsBuffer) (ops : List BufOp) :
    runOps b ops = ops.foldl applyOp ([], b) := rfl

lemma freshBuffer_capacity (N : Nat) : (freshBuffer N).capacity = N := rfl

lemma freshBuffer_window (N : Nat) : (freshBuffer N).window = [] := rfl

lemma freshBuffer_prev (N : Nat) :
    (freshBuffer N).previous_action = zeroAction := rfl

/-! ### Claim theorems -/

/-- C2.  Cold start: on a fresh buffer of capacity `N`, after any session
whose ingests push the composed observations `o1 :: os` with
`k = os.length + 1 < N`, the sequence returned by the `k`-th
`ingest_and_build` is `[o1]*(N-k) ++ (o1 :: os)` — length exactly `N`,
left-padded by repeating the first real observation, with no genuine
observation dropped or reordered. -/
theorem ingest_cold_start_padding
    (N : Nat) (ops : List BufOp) (o1 : Obs) (os : List Obs)
    (hobs : obsStream zeroAction ops = o1 :: os)
    (hlt : os.length + 1 < N) :
    (runOps (freshBuffer N) ops).1
      = List.replicate (N - (os.length + 1)) o1 ++ (o1 :: os)
    ∧ (runOps (freshBuffer N) ops).1.length = N := by
  have hN : 1 ≤ N := by omega
  obtain ⟨-, h2, -, h4⟩ := runOps_invariant ops [] (freshBuffer N)
  rw [freshBuffer_capacity, freshBuffer_window, freshBuffer_prev, hobs] at h2
  rw [freshBuffer_capacity, freshBuffer_prev, hobs] at h4
  rw [foldPush_eq_drop N hN (o1 :: os) [] (by simp)] at h2
  have hz : ([] : List Obs).length + (o1 :: os).length - N = 0 := by
    simp; omega
  rw [hz, List.drop_zero, List.nil_append] at h2
  have hseq := h4 (by simp)
  rw [h2] at hseq
  have hpad : padSequence N (o1 :: os)
      = List.replicate (N - (os.length + 1)) o1 ++ (o1 :: os) := by
    simp [padSequence]
  refine ⟨?_, ?_⟩
  · rw [runOps_def, hseq, hpad]
  · rw [runOps_def, hseq, hpad]
    simp
    omega

theorem ingest_cold_start_padding_witness :
    (obsStream zeroAction
        [BufOp.ingest [10, 20, 30, 40, 50, 60],
         BufOp.ingest [11, 21, 31, 41, 51, 61]]
      = [10, 20, 30, 40, 50, 60, 0, 0, 0, 0]
          :: [[11, 21, 31, 41, 51, 61, 0, 0, 0, 0]]
      ∧ ([[11, 21, 31, 41, 51, 61, 0, 0, 0, 0]] : List Obs).length + 1 < 4)
    ∧ ((runOps (freshBuffer 4)
        [BufOp.ingest [10, 20, 30, 40, 50, 60],
         BufOp.ingest [11, 21, 31, 41, 51, 61]]).1
      = List.replicate
          (4 - (([[11, 21, 31, 41, 51, 61, 0, 0, 0, 0]] : List Obs).length + 1))
          [10, 20, 30, 40, 50, 60, 0, 0, 0, 0]
        ++ ([10, 20, 30, 40, 50, 60, 0, 0, 0, 0]
              :: [[11, 21, 31, 41, 51, 61, 0, 0, 0, 0]])
      ∧ (runOps (freshBuffer 4)
          [BufOp.ingest [10, 20, 30, 40, 50, 60],
           BufOp.ingest [11, 21, 31, 41, 51, 61]]).1.length = 4) :=
  ⟨⟨by decide, by decide⟩,
   ingest_cold_start_padding 4
     [BufOp.ingest [10, 20, 30, 40, 50, 60],
      BufOp.ingest [11, 21, 31, 41, 51, 61]]
     [10, 20, 30, 40, 50, 60, 0, 0, 0, 0]
     [[11, 21, 31, 41, 51, 61, 0, 0, 0, 0]]
     (by decide) (by decide)⟩

/-- C3.  Sliding window: on a fresh buffer of capacity `N ≥ 1`, after any
session whose ingests push `k ≥ N` composed observations, the sequence
returned by the `k`-th `ingest_and_build` is the last `N` ingested
observations in their original order, and along the whole session the
window never exceeds size `N`. -/
theorem ingest_sliding_window
    (N : Nat) (ops : List BufOp) (hN : 1 ≤ N)
    (hk : N ≤ (obsStream zeroAction ops).length) :
    (runOps (freshBuffer N) ops).1
      = (obsStream zeroAction ops).drop
          ((obsStream zeroAction ops).length - N)
    ∧ (runOps (freshBuffer N) ops).1.length = N
    ∧ ∀ j, ((runOps (freshBuffer N) (ops.take j)).2).window.length ≤ N := by
  have hwin : ∀ l : List BufOp,
      ((l.foldl applyOp (([] : List Obs), freshBuffer N)).2).window
        = (obsStream zeroAction l).drop
            ((obsStream zeroAction l).length - N) := by
    intro l
    obtain ⟨-, h2, -, -⟩ := runOps_invariant l [] (freshBuffer N)
    rw [freshBuffer_capacity, freshBuffer_window, freshBuffer_prev] at h2
    rw [h2, foldPush_eq_drop N hN _ [] (by simp)]
    simp
  have hslen : ∀ l : List BufOp,
      ((l.foldl applyOp (([] : List Obs), freshBuffer N)).2).window.length
        = (obsStream zeroAction l).length
            - ((obsStream zeroAction l).length - N) := by
    intro l
    rw [hwin l, List.length_drop]
  have hwlen :
      ((ops.foldl applyOp (([] : List Obs), freshBuffer N)).2).window.length
        = N := by
    rw [hslen ops]; omega
  have hstream_ne : obsStream zeroAction ops ≠ [] := by
    intro h
    rw [h] at hk
    simp at hk
    omega
  obtain ⟨-, -, -, h4⟩ := runOps_invariant ops [] (freshBuffer N)
  rw [freshBuffer_capacity, freshBuffer_prev] at h4
  have hseq := h4 hstream_ne
  rw [padSequence_of_full N hN _ hwlen, hwin ops] at hseq
  refine ⟨?_, ?_, ?_⟩
  · rw [runOps_def]
    exact hseq
  · rw [runOps_def, hseq, List.length_drop]
    omega
  · intro j
    rw [runOps_def, hslen (ops.take j)]
    omega

theorem ingest_sliding_window_witness :
    (1 ≤ 2
      ∧ 2 ≤ (obsStream zeroAction
          [BufOp.ingest [1, 2, 3, 4, 5, 6],
           BufOp.ingest [7, 8, 9, 10, 11, 12],
           BufOp.ingest [13, 14, 15, 16, 17, 18]]).length)
    ∧ ((runOps (freshBuffer 2)
        [BufOp.ingest [1, 2, 3, 4, 5, 6],
         BufOp.ingest [7, 8, 9, 10, 11, 12],
         BufOp.ingest [13, 14, 15, 16, 17, 18]]).1
      = (obsStream zeroAction
          [BufOp.ingest [1, 2, 3, 4, 5, 6],
           BufOp.ingest [7, 8, 9, 10, 11, 12],
           BufOp.ingest [13, 14, 15, 16, 17, 18]]).drop
          ((obsStream zeroAction
            [BufOp.ingest [1, 2, 3, 4, 5, 6],
             BufOp.ingest [7, 8, 9, 10, 11, 12],
             BufOp.ingest [13, 14, 15, 16, 17, 18]]).length - 2)
      ∧ (runOps (freshBuffer 2)
          [BufOp.ingest [1, 2, 3, 4, 5, 6],
           BufOp.ingest [7, 8, 9, 10, 11, 12],
           BufOp.ingest [13, 14, 15, 16, 17, 18]]).1.length = 2
      ∧ ∀ j, ((runOps (freshBuffer 2)
          ([BufOp.ingest [1, 2, 3, 4, 5, 6],
            BufOp.ingest [7, 8, 9, 10, 11, 12],
            BufOp.ingest [13, 14, 15, 16, 17, 18]].take j)).2).window.length
            ≤ 2) :=
  ⟨⟨by decide, by decide⟩,
   ingest_sliding_window 2
     [BufOp.ingest [1, 2, 3, 4, 5, 6],
      BufOp.ingest [7, 8, 9, 10, 11, 12],
      BufOp.ingest [13, 14, 15, 16, 17, 18]]
     (by decide) (by decide)⟩

/-- Round trip of one feature row: denormalizing the normalized row
recovers the original whenever every std entry is nonzero. -/
lemma round_trip_row :
    ∀ (x mean std : List ℚ), mean.length = x.length → std.length = x.length →
      (∀ s ∈ std, s ≠ 0) →
      denormalize (normalizeRow x mean std) mean std = x := by
  intro x
  induction x with
  | nil =>
    intro mean std hm hs hnz
    simp [normalizeRow, denormalize]
  | cons a xs ih =>
    intro mean std hm hs hnz
    cases mean with
    | nil => simp at hm
    | cons m ms =>
      cases std with
      | nil => simp at hs
      | cons s ss =>
        have hs0 : s ≠ 0 := hnz s (List.mem_cons_self s ss)
        have hmain : (a - m) / s * s + m = a := by
          rw [div_mul_cancel₀ _ hs0]
          ring
        have ihx := ih ms ss (by simpa using hm) (by simpa using hs)
          (fun q hq => hnz q (List.mem_cons_of_mem s hq))
        simp only [normalizeRow, denormalize, List.zip_cons_cons,
          List.map_cons] at ihx ⊢
        rw [List.cons.injEq]
        exact ⟨hmain, ihx⟩

/-- C1. The claim says `/reset` with a loaded model maps to the buffer's
`reset()` and returns the `buffer_reset` status.  On the code it cannot:
`AutopilotInference` (inference.py) defines no `reset_buffer` attribute, so
the handler's `autopilot.reset_buffer()` raises `AttributeError`, which the
`except` block turns into an HTTP 500 `Reset error` response; the success
branch is unreachable. -/
theorem reset_endpoint_never_succeeds :
    reset_endpoint true = ResetResponse.httpError 500 ("Reset error")
    ∧ reset_endpoint true ≠ ResetResponse.ok ("buffer_reset")
    ∧ hasAttr autopilotInferenceAttrs ("reset_buffer") = false := by
  refine ⟨rfl, ?_, rfl⟩
  intro h
  simp [reset_endpoint, hasAttr, autopilotInferenceAttrs] at h

/-- C4.  Threshold semantics: each of the four boolean commands is true
exactly when its probability is `>= threshold` (a tie at the threshold
counts as positive), the server's hardcoded threshold and the inference
default are both `0.5`, the server's `ControlCommands` construction agrees
with the inference one at that threshold, and thresholding
`[0.6, 0.4, 0.5, 0.51]` at `0.5` yields `[1, 0, 1, 1]` (both as commands
and as the recorded previous-action vector). -/
theorem threshold_commands_semantics (p : Probs4) (t : ℚ) :
    ((predictCommands p t).forward = true ↔ p.w ≥ t)
    ∧ ((predictCommands p t).left = true ↔ p.a ≥ t)
    ∧ ((predictCommands p t).backward = true ↔ p.s ≥ t)
    ∧ ((predictCommands p t).right = true ↔ p.d ≥ t)
    ∧ serverCommands p = predictCommands p serverThreshold
    ∧ serverThreshold = 1 / 2
    ∧ inferenceDefaultThreshold = 1 / 2
    ∧ predictCommands ⟨3 / 5, 2 / 5, 1 / 2, 51 / 100⟩ (1 / 2)
        = ⟨true, false, true, true⟩
    ∧ thresholdActions [3 / 5, 2 / 5, 1 / 2, 51 / 100] (1 / 2)
        = [1, 0, 1, 1] := by
  refine ⟨?_, ?_, ?_, ?_, rfl, rfl, rfl, ?_, ?_⟩
  · simp [predictCommands]
  · simp [predictCommands]
  · simp [predictCommands]
  · simp [predictCommands]
  · simp only [predictCommands, Commands.mk.injEq, decide_eq_true_eq,
      decide_eq_false_iff_not]
    norm_num
  · simp only [thresholdActions, List.map_cons, List.map_nil]
    norm_num

/-- C5.  The `/predict` handler composes each model-input timestep as the
request's 6 raw sensor values concatenated with the previous-action
4-vector (total width 10), appending the same externally-tracked
previous-action vector to every timestep of the sequence. -/
theorem timestep_composition (x : List (List ℚ)) (prev : List ℚ)
    (hx : ∀ t ∈ x, t.length = 6) (hp : prev.length = 4) :
    (composeTimesteps x prev).length = x.length
    ∧ (∀ i, (composeTimesteps x prev).get? i
        = (x.get? i).map (fun t => t ++ prev))
    ∧ (∀ t ∈ composeTimesteps x prev, t.length = 10) := by
  refine ⟨by simp [composeTimesteps], ?_, ?_⟩
  · intro i
    simp [composeTimesteps, List.get?_map]
  · intro t ht
    simp only [composeTimesteps, List.mem_map] at ht
    obtain ⟨u, hu, rfl⟩ := ht
    simp [hx u hu, hp]

theorem timestep_composition_witness :
    ((∀ t ∈ ([[1, 2, 3, 4, 5, 6], [7, 8, 9, 10, 11, 12]] : List (List ℚ)),
        t.length = 6)
      ∧ ([0, 1, 0, 1] : List ℚ).length = 4)
    ∧ ((composeTimesteps [[1, 2, 3, 4, 5, 6], [7, 8, 9, 10, 11, 12]]
          [0, 1, 0, 1]).length
        = ([[1, 2, 3, 4, 5, 6], [7, 8, 9, 10, 11, 12]] : List (List ℚ)).length
      ∧ (∀ i, (composeTimesteps [[1, 2, 3, 4, 5, 6], [7, 8, 9, 10, 11, 12]]
          [0, 1, 0, 1]).get? i
        = (([[1, 2, 3, 4, 5, 6], [7, 8, 9, 10, 11, 12]]
            : List (List ℚ)).get? i).map (fun t => t ++ [0, 1, 0, 1]))
      ∧ (∀ t ∈ composeTimesteps [[1, 2, 3, 4, 5, 6], [7, 8, 9, 10, 11, 12]]
          [0, 1, 0, 1], t.length = 10)) :=
  ⟨⟨by decide, by decide⟩,
   timestep_composition [[1, 2, 3, 4, 5, 6], [7, 8, 9, 10, 11, 12]]
     [0, 1, 0, 1] (by decide) (by decide)⟩

/-- C7.  A checkpoint without a normalization record makes the load emit
the visible warning, and every later `normalize_features` call returns its
input unchanged. -/
theorem missing_norm_record (params : Option NormParams) (features : List ℚ)
    (h : params = none) :
    normalize_features params features = features
    ∧ loadWarnings params = [noNormalizationWarning]
    ∧ loadWarnings params ≠ [] := by
  subst h
  exact ⟨rfl, rfl, by simp [loadWarnings]⟩

theorem missing_norm_record_witness :
    ((none : Option NormParams) = none)
    ∧ (normalize_features none [1, 2, 3] = [1, 2, 3]
      ∧ loadWarnings (none : Option NormParams) = [noNormalizationWarning]
      ∧ loadWarnings (none : Option NormParams) ≠ []) :=
  ⟨rfl, missing_norm_record none [1, 2, 3] rfl⟩

/-- C9.  Normalization round trip: with every std entry nonzero,
denormalizing (multiply by std, add mean) the normalized features
(`(x - mean) / std`, here via `normalize_features` with a present record)
recovers the original feature vector exactly. -/
theorem normalization_round_trip (x mean std : List ℚ)
    (hm : mean.length = x.length) (hs : std.length = x.length)
    (hnz : ∀ s ∈ std, s ≠ 0) :
    denormalize (normalize_features (some ⟨mean, std⟩) x) mean std = x := by
  have h := round_trip_row x mean std hm hs hnz
  simpa [normalize_features] using h

theorem normalization_round_trip_witness :
    (([1, 2] : List ℚ).length = ([3, 5] : List ℚ).length
      ∧ ([2, 4] : List ℚ).length = ([3, 5] : List ℚ).length
      ∧ ∀ s ∈ ([2, 4] : List ℚ), s ≠ 0)
    ∧ denormalize (normalize_features (some ⟨[1, 2], [2, 4]⟩) [3, 5])
        [1, 2] [2, 4] = [3, 5] :=
  ⟨⟨by decide, by decide, by decide⟩,
   normalization_round_trip [3, 5] [1, 2] [2, 4]
     (by decide) (by decide) (by decide)⟩

/-- Every entry of the fixed std vector is nonzero: a zero entry was
replaced by 1 and a nonzero entry kept. -/
lemma fixStd_get_ne_zero (std : List ℚ) (j : Nat) (d : ℚ)
    (h : (fixStd std).get? j = some d) : d ≠ 0 := by
  rw [fixStd, List.get?_map] at h
  cases hs : std.get? j with
  | none => rw [hs] at h; exact absurd h (by simp)
  | some s =>
    rw [hs] at h
    simp only [Option.map_some', Option.some.injEq] at h
    subst h
    by_cases h0 : s = 0 <;> simp [h0]

/-- C6.  The normalization step replaces every std entry that is exactly 0
with 1 before dividing: the std vector stored in the checkpoint record has
no zero entry, and every value of the normalized output is
`(x - mean) / d` for a divisor `d` drawn from the fixed std vector, hence
nonzero — the division is never by zero. -/
theorem normalize_std_never_zero (rows : List (List ℚ)) (mean std : List ℚ) :
    (∀ i, ((normalize_sequences rows mean std).2).std.get? i ≠ some 0)
    ∧ (∀ i j v,
        ((normalize_sequences rows mean std).1.get? i).bind
            (fun r => r.get? j) = some v →
        ∃ x m d, (rows.get? i).bind (fun r => r.get? j) = some x
          ∧ (mean.zip (fixStd std)).get? j = some (m, d)
          ∧ d ≠ 0 ∧ v = (x - m) / d) := by
  constructor
  · intro i hcontra
    exact fixStd_get_ne_zero std i 0 hcontra rfl
  · intro i j v hv
    have h1 : (normalize_sequences rows mean std).1
        = rows.map (fun r => normalizeRow r mean (fixStd std)) := rfl
    rw [h1, List.get?_map] at hv
    cases hr : rows.get? i with
    | none => rw [hr] at hv; exact absurd hv (by simp)
    | some r =>
      rw [hr] at hv
      simp only [Option.map_some', Option.some_bind] at hv
      rw [normalizeRow, List.get?_map] at hv
      cases hz : (r.zip (mean.zip (fixStd std))).get? j with
      | none => rw [hz] at hv; exact absurd hv (by simp)
      | some q =>
        rw [hz] at hv
        simp only [Option.map_some', Option.some.injEq] at hv
        obtain ⟨hq1, hq2⟩ := (List.get?_zip_eq_some _ _ q j).mp hz
        refine ⟨q.1, q.2.1, q.2.2, ?_, ?_, ?_, hv.symm⟩
        · simpa using hq1
        · simpa using hq2
        · obtain ⟨-, hd⟩ := (List.get?_zip_eq_some _ _ q.2 j).mp hq2
          exact fixStd_get_ne_zero std j q.2.2 hd

theorem normalize_std_never_zero_witness :
    (((normalize_sequences [[1, 2], [1, 4]] [1, 3] [0, 1]).1.get? 0).bind
        (fun r => r.get? 0) = some 0)
    ∧ ((∀ i, ((normalize_sequences [[1, 2], [1, 4]] [1, 3] [0, 1]).2).std.get?
          i ≠ some 0)
      ∧ ∃ x m d,
          (([[1, 2], [1, 4]] : List (List ℚ)).get? 0).bind
              (fun r => r.get? 0) = some x
          ∧ (([1, 3] : List ℚ).zip (fixStd [0, 1])).get? 0 = some (m, d)
          ∧ d ≠ 0 ∧ (0 : ℚ) = (x - m) / d) :=
  have hv : ((normalize_sequences [[1, 2], [1, 4]] [1, 3] [0, 1]).1.get?
      0).bind (fun r => r.get? 0) = some 0 := by
    norm_num [normalize_sequences, normalizeRow, fixStd]
  ⟨hv,
   (normalize_std_never_zero [[1, 2], [1, 4]] [1, 3] [0, 1]).1,
   (normalize_std_never_zero [[1, 2], [1, 4]] [1, 3] [0, 1]).2 0 0 0 hv⟩

/-- The feature-row mirror is an involution on shape-(6,) rows. -/
lemma mirrorFeatureRow_invol (r r2 : List ℚ)
    (h : mirrorFeatureRow r = some r2) : mirrorFeatureRow r2 = some r := by
  rcases r with - | ⟨x1, - | ⟨x2, - | ⟨x3, - | ⟨x4, - | ⟨x5, - | ⟨x6,
      - | ⟨x7, r⟩⟩⟩⟩⟩⟩⟩ <;>
    simp only [mirrorFeatureRow, Option.some.injEq, reduceCtorEq] at h
  subst h
  rfl

/-- The label-row mirror is an involution on shape-(4,) rows. -/
lemma mirrorLabelRow_invol (r r2 : List ℚ)
    (h : mirrorLabelRow r = some r2) : mirrorLabelRow r2 = some r := by
  rcases r with - | ⟨x1, - | ⟨x2, - | ⟨x3, - | ⟨x4, - | ⟨x5, r⟩⟩⟩⟩⟩ <;>
    simp only [mirrorLabelRow, Option.some.injEq, reduceCtorEq] at h
  subst h
  rfl

/-- The columns of a mirrored feature row: C (2) and speed (5) unchanged,
L (0) ↔ R (4) and ML (1) ↔ MR (3) swapped. -/
lemma mirrorFeatureRow_cols (r r2 : List ℚ)
    (h : mirrorFeatureRow r = some r2) :
    r2.get? 2 = r.get? 2 ∧ r2.get? 5 = r.get? 5
    ∧ r2.get? 0 = r.get? 4 ∧ r2.get? 4 = r.get? 0
    ∧ r2.get? 1 = r.get? 3 ∧ r2.get? 3 = r.get? 1 := by
  rcases r with - | ⟨x1, - | ⟨x2, - | ⟨x3, - | ⟨x4, - | ⟨x5, - | ⟨x6,
      - | ⟨x7, r⟩⟩⟩⟩⟩⟩⟩ <;>
    simp only [mirrorFeatureRow, Option.some.injEq, reduceCtorEq] at h
  subst h
  exact ⟨rfl, rfl, rfl, rfl, rfl, rfl⟩

/-- The columns of a mirrored label row: W (0) and S (2) unchanged,
A (1) ↔ D (3) swapped. -/
lemma mirrorLabelRow_cols (r r2 : List ℚ)
    (h : mirrorLabelRow r = some r2) :
    r2.get? 0 = r.get? 0 ∧ r2.get? 2 = r.get? 2
    ∧ r2.get? 1 = r.get? 3 ∧ r2.get? 3 = r.get? 1 := by
  rcases r with - | ⟨x1, - | ⟨x2, - | ⟨x3, - | ⟨x4, - | ⟨x5, r⟩⟩⟩⟩⟩ <;>
    simp only [mirrorLabelRow, Option.some.injEq, reduceCtorEq] at h
  subst h
  exact ⟨rfl, rfl, rfl, rfl⟩

/-- The rows produced by a successful `mapRows` run, index by index. -/
lemma mapRows_get? (g : List ℚ → Option (List ℚ)) :
    ∀ (rs rs2 : List (List ℚ)), mapRows g rs = some rs2 →
      ∀ i, rs2.get? i = (rs.get? i).bind g := by
  intro rs
  induction rs with
  | nil =>
    intro rs2 h i
    simp only [mapRows, Option.some.injEq] at h
    subst h
    simp
  | cons r rs ih =>
    intro rs2 h i
    simp only [mapRows] at h
    cases hr : g r with
    | none => rw [hr] at h; exact absurd h (by simp)
    | some r2 =>
      rw [hr] at h
      cases hrs : mapRows g rs with
      | none => rw [hrs] at h; exact absurd h (by simp)
      | some rs2' =>
        rw [hrs] at h
        simp only [Option.some.injEq] at h
        subst h
        cases i with
        | zero => simpa using hr.symm
        | succ i => simpa using ih rs2' hrs i

/-- Row-wise involution lifts through `mapRows`. -/
lemma mapRows_invol (g : List ℚ → Option (List ℚ))
    (hg : ∀ r r2, g r = some r2 → g r2 = some r) :
    ∀ (rs rs2 : List (List ℚ)), mapRows g rs = some rs2 →
      mapRows g rs2 = some rs := by
  intro rs
  induction rs with
  | nil =>
    intro rs2 h
    simp only [mapRows, Option.some.injEq] at h
    subst h
    rfl
  | cons r rs ih =>
    intro rs2 h
    simp only [mapRows] at h
    cases hr : g r with
    | none => rw [hr] at h; exact absurd h (by simp)
    | some r2 =>
      rw [hr] at h
      cases hrs : mapRows g rs with
      | none => rw [hrs] at h; exact absurd h (by simp)
      | some rs2' =>
        rw [hrs] at h
        simp only [Option.some.injEq] at h
        subst h
        simp only [mapRows, hg r r2 hr, ih rs2' hrs]

/-- Array-level column equality, lifted from the row-level transform. -/
lemma mapRows_col (g : List ℚ → Option (List ℚ)) (c c' : Nat)
    (hcol : ∀ r r2, g r = some r2 → r2.get? c = r.get? c')
    (rs rs2 : List (List ℚ)) (h : mapRows g rs = some rs2) :
    ∀ i, (rs2.get? i).bind (fun r => r.get? c)
      = (rs.get? i).bind (fun r => r.get? c') := by
  intro i
  rw [mapRows_get? g rs rs2 h i]
  cases hr : rs.get? i with
  | none => simp
  | some r =>
    cases hgr : g r with
    | none =>
      exfalso
      have hmem : r ∈ rs := List.get?_mem hr
      clear hr
      induction rs generalizing rs2 with
      | nil => simp at hmem
      | cons a as ih =>
        simp only [mapRows] at h
        cases ha : g a with
        | none => rw [ha] at h; exact absurd h (by simp)
        | some a2 =>
          rw [ha] at h
          cases has : mapRows g as with
          | none => rw [has] at h; exact absurd h (by simp)
          | some as2 =>
            rcases List.mem_cons.mp hmem with rfl | hmem'
            · rw [ha] at hgr; exact absurd hgr (by simp)
            · exact ih as2 has hmem'
    | some r2 =>
      simp only [Option.some_bind, hgr]
      exact hcol r r2 hgr

/-- C10.  `mirror_telemetry` is an involution: applying it twice returns
the original `(N, 6)` features and `(N, 4)` labels; one application leaves
the center-sensor column (2), the speed column (5) and the W/S label
columns (0 and 2) unchanged while swapping L↔R, ML↔MR and A↔D. -/
theorem mirror_telemetry_involution (f l f2 l2 : List (List ℚ))
    (h : mirror_telemetry f l = some (f2, l2)) :
    mirror_telemetry f2 l2 = some (f, l)
    ∧ (∀ i, (f2.get? i).bind (fun r => r.get? 2)
        = (f.get? i).bind (fun r => r.get? 2))
    ∧ (∀ i, (f2.get? i).bind (fun r => r.get? 5)
        = (f.get? i).bind (fun r => r.get? 5))
    ∧ (∀ i, (f2.get? i).bind (fun r => r.get? 0)
        = (f.get? i).bind (fun r => r.get? 4))
    ∧ (∀ i, (f2.get? i).bind (fun r => r.get? 4)
        = (f.get? i).bind (fun r => r.get? 0))
    ∧ (∀ i, (f2.get? i).bind (fun r => r.get? 1)
        = (f.get? i).bind (fun r => r.get? 3))
    ∧ (∀ i, (f2.get? i).bind (fun r => r.get? 3)
        = (f.get? i).bind (fun r => r.get? 1))
    ∧ (∀ i, (l2.get? i).bind (fun r => r.get? 0)
        = (l.get? i).bind (fun r => r.get? 0))
    ∧ (∀ i, (l2.get? i).bind (fun r => r.get? 2)
        = (l.get? i).bind (fun r => r.get? 2))
    ∧ (∀ i, (l2.get? i).bind (fun r => r.get? 1)
        = (l.get? i).bind (fun r => r.get? 3))
    ∧ (∀ i, (l2.get? i).bind (fun r => r.get? 3)
        = (l.get? i).bind (fun r => r.get? 1)) := by
  have hsplit : mapRows mirrorFeatureRow f = some f2
      ∧ mapRows mirrorLabelRow l = some l2 := by
    rw [mirror_telemetry] at h
    cases hf : mapRows mirrorFeatureRow f with
    | none => rw [hf] at h; exact absurd h (by simp)
    | some f2' =>
      rw [hf] at h
      cases hl : mapRows mirrorLabelRow l with
      | none => rw [hl] at h; exact absurd h (by simp)
      | some l2' =>
        rw [hl] at h
        simp only [Option.some.injEq, Prod.mk.injEq] at h
        obtain ⟨h1, h2⟩ := h
        subst h1
        subst h2
        exact ⟨rfl, rfl⟩
  obtain ⟨hf, hl⟩ := hsplit
  refine ⟨?_, ?_, ?_, ?_, ?_, ?_, ?_, ?_, ?_, ?_, ?_⟩
  · rw [mirror_telemetry,
      mapRows_invol mirrorFeatureRow mirrorFeatureRow_invol f f2 hf,
      mapRows_invol mirrorLabelRow mirrorLabelRow_invol l l2 hl]
  · exact mapRows_col _ 2 2 (fun r r2 hr => (mirrorFeatureRow_cols r r2 hr).1)
      f f2 hf
  · exact mapRows_col _ 5 5 (fun r r2 hr => (mirrorFeatureRow_cols r r2 hr).2.1)
      f f2 hf
  · exact mapRows_col _ 0 4 (fun r r2 hr => (mirrorFeatureRow_cols r r2 hr).2.2.1)
      f f2 hf
  · exact mapRows_col _ 4 0
      (fun r r2 hr => (mirrorFeatureRow_cols r r2 hr).2.2.2.1) f f2 hf
  · exact mapRows_col _ 1 3
      (fun r r2 hr => (mirrorFeatureRow_cols r r2 hr).2.2.2.2.1) f f2 hf
  · exact mapRows_col _ 3 1
      (fun r r2 hr => (mirrorFeatureRow_cols r r2 hr).2.2.2.2.2) f f2 hf
  · exact mapRows_col _ 0 0 (fun r r2 hr => (mirrorLabelRow_cols r r2 hr).1)
      l l2 hl
  · exact mapRows_col _ 2 2 (fun r r2 hr => (mirrorLabelRow_cols r r2 hr).2.1)
      l l2 hl
  · exact mapRows_col _ 1 3 (fun r r2 hr => (mirrorLabelRow_cols r r2 hr).2.2.1)
      l l2 hl
  · exact mapRows_col _ 3 1
      (fun r r2 hr => (mirrorLabelRow_cols r r2 hr).2.2.2) l l2 hl

theorem mirror_telemetry_involution_witness :
    mirror_telemetry [[1, 2, 3, 4, 5, 6]] [[1, 1, 0, 0]]
      = some ([[5, 4, 3, 2, 1, 6]], [[1, 0, 0, 1]])
    ∧ (mirror_telemetry [[5, 4, 3, 2, 1, 6]] [[1, 0, 0, 1]]
        = some ([[1, 2, 3, 4, 5, 6]], [[1, 1, 0, 0]])
      ∧ (∀ i, (([[5, 4, 3, 2, 1, 6]] : List (List ℚ)).get? i).bind
            (fun r => r.get? 2)
          = (([[1, 2, 3, 4, 5, 6]] : List (List ℚ)).get? i).bind
            (fun r => r.get? 2))
      ∧ (∀ i, (([[5, 4, 3, 2, 1, 6]] : List (List ℚ)).get? i).bind
            (fun r => r.get? 5)
          = (([[1, 2, 3, 4, 5, 6]] : List (List ℚ)).get? i).bind
            (fun r => r.get? 5))
      ∧ (∀ i, (([[5, 4, 3, 2, 1, 6]] : List (List ℚ)).get? i).bind
            (fun r => r.get? 0)
          = (([[1, 2, 3, 4, 5, 6]] : List (List ℚ)).get? i).bind
            (fun r => r.get? 4))
      ∧ (∀ i, (([[5, 4, 3, 2, 1, 6]] : List (List ℚ)).get? i).bind
            (fun r => r.get? 4)
          = (([[1, 2, 3, 4, 5, 6]] : List (List ℚ)).get? i).bind
            (fun r => r.get? 0))
      ∧ (∀ i, (([[5, 4, 3, 2, 1, 6]] : List (List ℚ)).get? i).bind
            (fun r => r.get? 1)
          = (([[1, 2, 3, 4, 5, 6]] : List (List ℚ)).get? i).bind
            (fun r => r.get? 3))
      ∧ (∀ i, (([[5, 4, 3, 2, 1, 6]] : List (List ℚ)).get? i).bind
            (fun r => r.get? 3)
          = (([[1, 2, 3, 4, 5, 6]] : List (List ℚ)).get? i).bind
            (fun r => r.get? 1))
      ∧ (∀ i, (([[1, 0, 0, 1]] : List (List ℚ)).get? i).bind
            (fun r => r.get? 0)
          = (([[1, 1, 0, 0]] : List (List ℚ)).get? i).bind
            (fun r => r.get? 0))
      ∧ (∀ i, (([[1, 0, 0, 1]] : List (List ℚ)).get? i).bind
            (fun r => r.get? 2)
          = (([[1, 1, 0, 0]] : List (List ℚ)).get? i).bind
            (fun r => r.get? 2))
      ∧ (∀ i, (([[1, 0, 0, 1]] : List (List ℚ)).get? i).bind
            (fun r => r.get? 1)
          = (([[1, 1, 0, 0]] : List (List ℚ)).get? i).bind
            (fun r => r.get? 3))
      ∧ (∀ i, (([[1, 0, 0, 1]] : List (List ℚ)).get? i).bind
            (fun r => r.get? 3)
          = (([[1, 1, 0, 0]] : List (List ℚ)).get? i).bind
            (fun r => r.get? 1))) :=
  ⟨by decide,
   mirror_telemetry_involution [[1, 2, 3, 4, 5, 6]] [[1, 1, 0, 0]]
     [[5, 4, 3, 2, 1, 6]] [[1, 0, 0, 1]] (by decide)⟩

/-- A uniformly 6-wide, nonempty sequence with a 4-wide previous-action
vector passes every step of the handler body. -/
lemma predictBodyOk_true (hasNorm : Bool) (t : List ℚ) (ts : List (List ℚ))
    (prev : List ℚ) (hx : ∀ u ∈ t :: ts, u.length = 6)
    (hp : prev.length = 4) :
    predictBodyOk hasNorm (t :: ts) prev = true := by
  have hcomp : composeTimesteps (t :: ts) prev
      = (t ++ prev) :: ts.map (fun u => u ++ prev) := rfl
  have ht0 : (t ++ prev).length = 10 := by
    simp [hx t (List.mem_cons_self t ts), hp]
  have hany : ((ts.map (fun u => u ++ prev)).any
      (fun r => decide (r.length ≠ (t ++ prev).length))) = false := by
    simp only [List.any_eq_false]
    intro r hr
    simp only [List.mem_map] at hr
    obtain ⟨u, hu, rfl⟩ := hr
    simp [hx u (List.mem_cons_of_mem t hu), hp, ht0]
  cases hasNorm with
  | false =>
    simp [predictBodyOk, hcomp, hany, ht0]
    intro u hu
    have hu6 := hx u (List.mem_cons_of_mem t hu)
    omega
  | true =>
    simp [predictBodyOk, hcomp, hany, ht0, Nat.mul_mod_left]
    intro u hu
    have hu6 := hx u (List.mem_cons_of_mem t hu)
    omega

/-- A uniformly `a`-wide, nonempty sequence with `a ≠ 6` composes to width
`a + 4 ≠ 10` and fails the handler body (the reshape when a normalization
record is present, the GRU input width otherwise). -/
lemma predictBodyOk_false_of_arity (hasNorm : Bool) (t : List ℚ)
    (ts : List (List ℚ)) (prev : List ℚ) (a : Nat)
    (hx : ∀ u ∈ t :: ts, u.length = a) (ha : a ≠ 6) (hp : prev.length = 4) :
    predictBodyOk hasNorm (t :: ts) prev = false := by
  have hcomp : composeTimesteps (t :: ts) prev
      = (t ++ prev) :: ts.map (fun u => u ++ prev) := rfl
  have ht0 : (t ++ prev).length = a + 4 := by
    simp [hx t (List.mem_cons_self t ts), hp]
  have hne10 : a + 4 ≠ 10 := by omega
  have hany : ((ts.map (fun u => u ++ prev)).any
      (fun r => decide (r.length ≠ (t ++ prev).length))) = false := by
    simp only [List.any_eq_false]
    intro r hr
    simp only [List.mem_map] at hr
    obtain ⟨u, hu, rfl⟩ := hr
    simp [hx u (List.mem_cons_of_mem t hu), hp, ht0]
  cases hasNorm with
  | false => simp [predictBodyOk, hcomp, hany, ht0, hne10]
  | true =>
    by_cases hmod : ((t :: ts).length * (a + 4)) % 10 = 0
    · simp [predictBodyOk, hcomp, hany, ht0, hmod, hne10]
    · simp [predictBodyOk, hcomp, hany, ht0, hmod]
      intro hrect hm
      exact ha

/-- C8 counterexample.  A request whose single timestep is a numeric
5-vector (wrong arity) passes pydantic validation — `list[list[float]]`
constrains no inner length — and fails only inside the handler body, so
the endpoint answers with the HTTP 500 inference error, not with a
data-validation error, whether or not the checkpoint carried a
normalization record. -/
theorem predict_wrong_arity_not_validation :
    (predict_endpoint_state
        (some ⟨[0, 0, 0, 0, 0, 0, 0, 0, 0, 0],
               [1, 1, 1, 1, 1, 1, 1, 1, 1, 1]⟩)
        { dt_ms := JVal.num 50,
          x := JVal.arr [JVal.arr [JVal.num 1, JVal.num 2, JVal.num 3,
                  JVal.num 4, JVal.num 5]],
          prev_actions := none }).1 = PredictOutcome.inferenceError
    ∧ (predict_endpoint_state none
        { dt_ms := JVal.num 50,
          x := JVal.arr [JVal.arr [JVal.num 1, JVal.num 2, JVal.num 3,
                  JVal.num 4, JVal.num 5]],
          prev_actions := none }).1 = PredictOutcome.inferenceError
    ∧ PredictOutcome.inferenceError ≠ PredictOutcome.validationError := by
  exact ⟨by decide, by decide, by decide⟩

/-- C8 (amended).  The endpoint never mutates the server's state; a
payload that fails pydantic type validation is rejected with the
data-validation error before the handler runs; a well-formed request
(nonempty sequence of 6-value numeric timesteps, 4-value previous action)
is processed without error; a wrong-arity but numeric sequence passes
validation and is instead answered with the HTTP 500 inference error. -/
theorem predict_validation_behavior (s : Option NormParams)
    (raw : RawPayload) :
    (predict_endpoint_state s raw).2 = s
    ∧ (validatePayload raw = none →
        (predict_endpoint_state s raw).1 = PredictOutcome.validationError)
    ∧ (∀ x prev, validatePayload raw = some (x, prev) → x ≠ [] →
        (∀ t ∈ x, t.length = 6) → prev.length = 4 →
        (predict_endpoint_state s raw).1 = PredictOutcome.ok)
    ∧ (∀ x prev a, validatePayload raw = some (x, prev) → x ≠ [] →
        (∀ t ∈ x, t.length = a) → a ≠ 6 → prev.length = 4 →
        (predict_endpoint_state s raw).1
          = PredictOutcome.inferenceError) := by
  refine ⟨rfl, ?_, ?_, ?_⟩
  · intro h
    simp [predict_endpoint_state, predict_endpoint, h]
  · intro x prev hval hne hx hp
    cases x with
    | nil => exact absurd rfl hne
    | cons t ts =>
      simp [predict_endpoint_state, predict_endpoint, hval,
        predictBodyOk_true s.isSome t ts prev hx hp]
  · intro x prev a hval hne hx ha hp
    cases x with
    | nil => exact absurd rfl hne
    | cons t ts =>
      simp [predict_endpoint_state, predict_endpoint, hval,
        predictBodyOk_false_of_arity s.isSome t ts prev a hx ha hp]

theorem predict_validation_behavior_witness :
    (validatePayload
        { dt_ms := JVal.num 50,
          x := JVal.arr [JVal.arr [JVal.num 1, JVal.num 2, JVal.num 3,
                  JVal.num 4, JVal.num 5, JVal.num 6]],
          prev_actions := none }
      = some ([[1, 2, 3, 4, 5, 6]], [0, 0, 0, 0])
      ∧ ([[1, 2, 3, 4, 5, 6]] : List (List ℚ)) ≠ []
      ∧ (∀ t ∈ ([[1, 2, 3, 4, 5, 6]] : List (List ℚ)), t.length = 6)
      ∧ ([0, 0, 0, 0] : List ℚ).length = 4)
    ∧ (predict_endpoint_state
        (some ⟨[0, 0, 0, 0, 0, 0, 0, 0, 0, 0],
               [1, 1, 1, 1, 1, 1, 1, 1, 1, 1]⟩)
        { dt_ms := JVal.num 50,
          x := JVal.arr [JVal.arr [JVal.num 1, JVal.num 2, JVal.num 3,
                  JVal.num 4, JVal.num 5, JVal.num 6]],
          prev_actions := none }).1 = PredictOutcome.ok :=
  ⟨⟨by decide, by decide, by decide, by decide⟩,
   (predict_validation_behavior
      (some ⟨[0, 0, 0, 0, 0, 0, 0, 0, 0, 0],
             [1, 1, 1, 1, 1, 1, 1, 1, 1, 1]⟩)
      { dt_ms := JVal.num 50,
        x := JVal.arr [JVal.arr [JVal.num 1, JVal.num 2, JVal.num 3,
                JVal.num 4, JVal.num 5, JVal.num 6]],
        prev_actions := none }).2.2.1 [[1, 2, 3, 4, 5, 6]] [0, 0, 0, 0]
     (by decide) (by decide) (by decide) (by decide)⟩

end AutoDrive
